import Mathlib

/-!
Shallow embedding of the core of the `todo` repository (an interactive
line-item list editor) and proofs about its specification claims.

Strings from the Python source are modelled as `List Char`.  Python's
`str.isspace`/`str.lstrip`/`str.isdigit` are modelled for ASCII text
(`pyIsSpace`, `pyIsDigit`); all theorems that quantify over text restrict
to ASCII characters, where the models coincide with Python's behaviour.
A Python function that can raise is modelled as returning `Option`
(`none` = the exception propagates).
-/

namespace TodoSpec

/-- Python whitespace test, restricted to ASCII: the characters that
`str.isspace` accepts and the default `str.lstrip` strips are, below
code point 128, exactly space, `\t`, `\n`, `\x0b`, `\x0c`, `\r` and the
file/group/record/unit separators `\x1c`-`\x1f`. -/
def pyIsSpace (c : Char) : Bool :=
  c = ' ' || c = '\t' || c = '\n' || c = '\x0b' || c = '\x0c' || c = '\r'
    || c = '\x1c' || c = '\x1d' || c = '\x1e' || c = '\x1f'

/-- Python `str.isdigit`, restricted to ASCII. -/
def pyIsDigit (c : Char) : Bool :=
  '0' ≤ c && c ≤ '9'

/-- Numeric value of an ASCII digit character, as in Python `int(ch)`. -/
def pyDigitVal (c : Char) : Nat :=
  c.toNat - '0'.toNat

/-- Length of the run of leading whitespace of a string; models
`len(text) - len(text.lstrip())` from `Todo.call_init`. -/
def lstripLen : List Char → Nat
  | [] => 0
  | c :: rest => if pyIsSpace c then lstripLen rest + 1 else 0

/-- The `BoxChar` enum of `src/class_todo.py`: the completion marker. -/
inductive BoxChar where
  | minus
  | plus
  | none
deriving DecidableEq, Repr

/-- String form of a `BoxChar` (its `__repr__`): `"-"`, `"+"`, or `""`. -/
def boxStr : BoxChar → List Char
  | BoxChar.minus => ['-']
  | BoxChar.plus => ['+']
  | BoxChar.none => []

/-- The `Color` enum of `src/utils.py`: seven colors with values 1-7. -/
inductive Color where
  | red
  | green
  | yellow
  | blue
  | magenta
  | cyan
  | white
deriving DecidableEq, Repr

/-- The `value` of a `Color` member (`Color.as_int`). -/
def Color.asInt : Color → Nat
  | Color.red => 1
  | Color.green => 2
  | Color.yellow => 3
  | Color.blue => 4
  | Color.magenta => 5
  | Color.cyan => 6
  | Color.white => 7

/-- The Python enum constructor `Color(n)`: `some` for the values 1-7,
`none` models the `ValueError` raised for every other argument. -/
def colorOfNat : Nat → Option Color
  | 1 => some Color.red
  | 2 => some Color.green
  | 3 => some Color.yellow
  | 4 => some Color.blue
  | 5 => some Color.magenta
  | 6 => some Color.cyan
  | 7 => some Color.white
  | _ => Option.none

/-- Decimal digit character of a color's value (`str(color.as_int())`;
the values are 1-7, a single digit). -/
def colorChar (c : Color) : Char :=
  Char.ofNat ('0'.toNat + c.asInt)

/-- The `Todo` item of `src/class_todo.py`: marker, color, display text,
the raw line it was parsed from, and the indent level. -/
structure Todo where
  box_char : BoxChar
  color : Color
  display_text : List Char
  text : List Char
  indent_level : Nat
deriving DecidableEq, Repr

/-- Model of `Todo._init_box_char`: an optional `-`/`+` marker at the pointer. -/
def initBoxChar (text : List Char) (p : Nat) : BoxChar × Nat :=
  match text.get? p with
  | some c =>
    if c = '-' then (BoxChar.minus, p + 1)
    else if c = '+' then (BoxChar.plus, p + 1)
    else (BoxChar.none, p)
  | Option.none => (BoxChar.none, p)

/-- Model of `Todo._init_color`: a digit immediately followed by a space is fed to
the `Color` constructor (which raises, i.e. returns `none` here, for
digits outside 1-7); otherwise the color defaults to white. -/
def initColor (text : List Char) (p : Nat) : Option (Color × Nat) :=
  match text.get? p, text.get? (p + 1) with
  | some c, some c2 =>
    if pyIsDigit c && c2 = ' ' then
      (colorOfNat (pyDigitVal c)).map (fun col => (col, p + 2))
    else some (Color.white, p)
  | _, _ => some (Color.white, p)

/-- Model of `Todo.call_init` (the decoder, run by `Todo.__init__`): computes the
indent, treats the empty line as a blank unchecked row, otherwise parses
marker, color, an optional separating space, and the display text.
`none` models the `ValueError` escaping from `Color(...)`. -/
def callInit (text : List Char) : Option Todo :=
  let ind := lstripLen text
  if text = [] then some ⟨BoxChar.minus, Color.white, [], text, ind⟩
  else
    let bp := initBoxChar text ind
    match initColor text bp.2 with
    | Option.none => Option.none
    | some cp =>
      let p := if text.get? cp.2 = some ' ' then cp.2 + 1 else cp.2
      some ⟨bp.1, cp.1, text.drop p, text, ind⟩

/-- Model of `Todo.__repr__` (the encoder): indent spaces, the marker (only when a
marker is present and the display text is non-empty), the color digit
(only when not white), a separating space when either of those two was
written, then the display text. -/
def reprTodo (t : Todo) : List Char :=
  List.replicate t.indent_level ' '
    ++ (if t.box_char ≠ BoxChar.none && !t.display_text.isEmpty then boxStr t.box_char else [])
    ++ (if t.color ≠ Color.white then [colorChar t.color] else [])
    ++ (if (t.box_char ≠ BoxChar.none && !t.display_text.isEmpty) || t.color ≠ Color.white
        then [' '] else [])
    ++ t.display_text

/-- Decoding relative to the start of the non-indent part of a line:
marker, color and separator exactly as in `callInit`, with pointers
relative to the given sub-string.  Used to factor the indent out of the
round-trip proof. -/
def callInitRel (mid : List Char) : Option (BoxChar × Color × List Char) :=
  let bp := initBoxChar mid 0
  match initColor mid bp.2 with
  | Option.none => Option.none
  | some cp =>
    let p := if mid.get? cp.2 = some ' ' then cp.2 + 1 else cp.2
    some (bp.1, cp.1, mid.drop p)

/-- A line produced by the specification's grammar (§4.1): indent spaces,
optional marker, optional color digit (written only when not the default
white), a separating space whenever a marker or an explicit color was
written, then the display text. -/
def mkLine (ind : Nat) (m : BoxChar) (c : Color) (t : List Char) : List Char :=
  List.replicate ind ' ' ++ boxStr m
    ++ (if c = Color.white then [] else [colorChar c])
    ++ (if m = BoxChar.none ∧ c = Color.white then [] else [' '])
    ++ t

/-- Conditions on a grammar line under which the codec round-trips.
The text is ASCII without newlines (so that the Python `lstrip`/`isdigit`
behaviour coincides with this model); a marker requires non-empty text;
with an explicit color the text must not begin with a space; with neither
marker nor color the text must not begin with whitespace, a marker
character, or a digit immediately followed by a space. -/
def GoodText (m : BoxChar) (c : Color) (t : List Char) : Prop :=
  (∀ ch ∈ t, ch.toNat < 128 ∧ ch ≠ '\n') ∧
  (m ≠ BoxChar.none → t ≠ []) ∧
  (c ≠ Color.white → t.head? ≠ some ' ') ∧
  (m = BoxChar.none → c = Color.white →
    ∀ ch, t.head? = some ch →
      pyIsSpace ch = false ∧ ch ≠ '-' ∧ ch ≠ '+' ∧
        ¬(pyIsDigit ch = true ∧ t.get? 1 = some ' '))

/-- The `_Direction` enum of `src/class_cursor.py`. -/
inductive Direction where
  | up
  | down
  | none
deriving DecidableEq, Repr

/-- The `Cursor` of `src/class_cursor.py`: a contiguous selection
`[start, stop)` plus the stored growth direction.  The fields are `Int`
because the Python attributes are unbounded integers and can in fact go
negative (see the C2 counterexample). -/
structure Cursor where
  start : Int
  stop : Int
  direction : Direction
deriving DecidableEq, Repr

/-- Model of `Cursor.set_to`: collapse to `[position, position + 1)`.  The stored
direction is not touched by the source method. -/
def Cursor.setTo (c : Cursor) (position : Int) : Cursor :=
  ⟨position, position + 1, c.direction⟩

/-- Model of `Cursor.single_up`: jump to 0 when the whole list is selected,
otherwise move a length-1 cursor up by one, stopping at 0. -/
def Cursor.singleUp (c : Cursor) (maxLen : Int) : Cursor :=
  if c.stop - c.start = maxLen then c.setTo 0
  else if c.start = 0 then c
  else c.setTo (c.start - 1)

/-- Model of `Cursor.single_down`: when the whole list is selected the cursor is
first collapsed with `set_to(get_first())` and — there being no `return`
after that call in the source — execution falls through to the ordinary
move-down logic on the collapsed cursor. -/
def Cursor.singleDown (c : Cursor) (maxLen : Int) : Cursor :=
  let c1 := if c.stop - c.start = maxLen then c.setTo c.start else c
  if c1.stop - 1 ≥ maxLen - 1 then c1 else c1.setTo (c1.stop - 1 + 1)

/-- Model of `Cursor.slide_up`: shift the whole range up by one; no-op at 0. -/
def Cursor.slideUp (c : Cursor) : Cursor :=
  if c.start = 0 then c else ⟨c.start - 1, c.stop - 1, c.direction⟩

/-- Model of `Cursor.slide_down`: shift the whole range down by one; no-op at the
bottom. -/
def Cursor.slideDown (c : Cursor) (maxLen : Int) : Cursor :=
  if c.stop - 1 ≥ maxLen - 1 then c else ⟨c.start + 1, c.stop + 1, c.direction⟩

/-- Model of `Cursor.multiselect_down`: no-op at the bottom; grow downward when
length 1 or already growing down (`_select_next`), otherwise shrink from
the top (`_deselect_prev`, guarded by length > 1). -/
def Cursor.multiselectDown (c : Cursor) (maxLen : Int) : Cursor :=
  if c.stop - 1 ≥ maxLen - 1 then c
  else if c.stop - c.start = 1 ∨ c.direction = Direction.down then
    ⟨c.start, c.stop + 1, Direction.down⟩
  else if c.stop - c.start > 1 then ⟨c.start + 1, c.stop, c.direction⟩ else c

/-- Model of `Cursor.multiselect_up`: no-op at the top only when already growing
up; grow upward when length 1 or already growing up (`_select_prev`,
which decrements `start` unconditionally), otherwise shrink from the
bottom (`_deselect_next`, guarded by length > 1). -/
def Cursor.multiselectUp (c : Cursor) : Cursor :=
  if c.start = 0 ∧ c.direction = Direction.up then c
  else if c.stop - c.start = 1 ∨ c.direction = Direction.up then
    ⟨c.start - 1, c.stop, Direction.up⟩
  else if c.stop - c.start > 1 then ⟨c.start, c.stop - 1, c.direction⟩ else c

/-- Model of `Cursor.multiselect_top`: `multiselect_up` iterated
`range(get_first(), 0, -1)` times, i.e. `start` times when positive. -/
def Cursor.multiselectTop (c : Cursor) : Cursor :=
  Cursor.multiselectUp^[c.start.toNat] c

/-- Model of `Cursor.multiselect_bottom`: `multiselect_down` iterated
`range(get_last() - 1, max_len)` times. -/
def Cursor.multiselectBottom (c : Cursor) (maxLen : Int) : Cursor :=
  (fun x => x.multiselectDown maxLen)^[(maxLen - (c.stop - 1 - 1)).toNat] c

/-- Model of `Cursor.multiselect_all`: select the whole list `[0, max_len)`. -/
def Cursor.multiselectAll (c : Cursor) (maxLen : Int) : Cursor :=
  ⟨0, maxLen, c.direction⟩

/-- The cursor range invariant claimed by the specification:
`0 ≤ start < stop ≤ max_len`. -/
def CursorInv (maxLen : Int) (c : Cursor) : Prop :=
  0 ≤ c.start ∧ c.start < c.stop ∧ c.stop ≤ maxLen

instance (maxLen : Int) (c : Cursor) : Decidable (CursorInv maxLen c) := by
  unfold CursorInv
  infer_instance

/-- The separator `" |SEP|"` used by `Restorable` in
`src/class_history.py`. -/
def sepChars : List Char := [' ', '|', 'S', 'E', 'P', '|']

/-- Python list indexing `l[i]`, including negative-index wraparound;
`none` models `IndexError`. -/
def pyIndex {α : Type _} (l : List α) (i : Int) : Option α :=
  if 0 ≤ i then l.get? i.toNat
  else if -i ≤ (l.length : Int) then l.get? (l.length - (-i).toNat)
  else Option.none

/-- A history snapshot (`Restorable` of `src/class_history.py`): the
items' raw text joined with `" |SEP|"`, plus the selected index. -/
structure Restorable where
  stored : List Char
  selected : Int
deriving DecidableEq, Repr

/-- Model of `Restorable.__init__`: join the raw `text` of every item. -/
def mkRestorable (todos : List Todo) (selected : Int) : Restorable :=
  ⟨List.intercalate sepChars (todos.map (fun t => t.text)), selected⟩

/-- Fuelled worker for Python `str.split(sep)` with a non-empty
separator: scan left to right, cutting at each occurrence of `sep`.
The fuel is an upper bound on the input length, so it never runs out on
the inputs `pySplit` passes. -/
def splitOnAux (sep : List Char) : Nat → List Char → List Char → List (List Char)
  | 0, rest, acc => [acc.reverse ++ rest]
  | _ + 1, [], acc => [acc.reverse]
  | fuel + 1, c :: rest, acc =>
    if sep.isPrefixOf (c :: rest) then
      acc.reverse :: splitOnAux sep fuel (List.drop (sep.length - 1) rest) []
    else splitOnAux sep fuel rest (c :: acc)

/-- Python `l.split(sep)` for a non-empty separator; in particular
`"".split(sep) == [""]`. -/
def pySplit (l : List Char) (sep : List Char) : List (List Char) :=
  splitOnAux sep (l.length + 1) l []

/-- Model of `Restorable.get`: split the stored string on the separator and
re-decode every piece with the `Todo` constructor (`Option` because the
constructor can raise on invalid color digits). -/
def restorableGet (r : Restorable) : Option (List Todo × Int) :=
  ((pySplit r.stored sepChars).mapM callInit).map (fun ts => (ts, r.selected))

/-- The `UndoRedo` history of `src/class_history.py`: an append-only list
of snapshots and a single moving index. -/
structure UndoRedo where
  history : List Restorable
  index : Int
deriving DecidableEq, Repr

/-- Model of `UndoRedo.__init__`: empty history, `index == -1`. -/
def emptyUndoRedo : UndoRedo := ⟨[], -1⟩

/-- Model of `UndoRedo.add`: append a snapshot and point the index at the new
tail. -/
def UndoRedo.add (h : UndoRedo) (todos : List Todo) (selected : Int) : UndoRedo :=
  let newHist := h.history ++ [mkRestorable todos selected]
  ⟨newHist, (newHist.length : Int) - 1⟩

/-- Model of `UndoRedo.undo`: decrement the index when positive, then return the
snapshot at the (new) index — `self.history[self.index]`, whose `.get()`
the caller then applies; `none` models the `IndexError` raised by the
indexing on an empty history. -/
def UndoRedo.undo (h : UndoRedo) : Option (UndoRedo × Restorable) :=
  let i := if h.index > 0 then h.index - 1 else h.index
  (pyIndex h.history i).map (fun r => (⟨h.history, i⟩, r))

/-- Model of `UndoRedo.redo`: increment the index when below the tail, then
return the snapshot at the (new) index. -/
def UndoRedo.redo (h : UndoRedo) : Option (UndoRedo × Restorable) :=
  let i := if h.index < (h.history.length : Int) - 1 then h.index + 1 else h.index
  (pyIndex h.history i).map (fun r => (⟨h.history, i⟩, r))

/-- Python's substring containment `needle in hay`: some contiguous run
of `hay` equals `needle` (always true for the empty needle). -/
def isSubstring (needle : List Char) : List Char → Bool
  | [] => needle.isEmpty
  | c :: rest => needle.isPrefixOf (c :: rest) || isSubstring needle rest

/-- The search loop of `search_menu` (`src/menus.py`) and `search`
(`todo.py`): walk the remaining items with a running index, stopping at
the first item whose `display_text` contains the query as a substring;
when the scan runs out, the cursor is reset to 0. -/
def searchGo (seq : List Char) : List Todo → Nat → Nat
  | [], _ => 0
  | td :: rest, i =>
    if isSubstring seq td.display_text then i else searchGo seq rest (i + 1)

/-- The index the search leaves the cursor at: the scan runs over
`todos[s:]` via `enumerate(..., start=s)`, so indices start at the
current selection `s` inclusive. -/
def searchIndex (todos : List Todo) (seq : List Char) (s : Nat) : Nat :=
  searchGo seq (todos.drop s) s

/-- Worker for `_get_indented_sections` (`src/menus.py`): indented items
are appended to the current section; a top-level item closes the current
section (when non-empty) and starts a new one; the final section is
appended after the loop. -/
def getIndentedSectionsGo : List Todo → List (List Todo) → List Todo → List (List Todo)
  | [], secs, cur => secs ++ [cur]
  | t :: rest, secs, cur =>
    if t.indent_level > 0 then getIndentedSectionsGo rest secs (cur ++ [t])
    else getIndentedSectionsGo rest (if cur.length > 0 then secs ++ [cur] else secs) [t]

/-- Model of `_get_indented_sections`, starting from no sections and an empty
current section. -/
def getIndentedSections (todos : List Todo) : List (List Todo) :=
  getIndentedSectionsGo todos [] []

/-- Python `list.index(a)`: position of the first element equal to `a`.
`Todo` defines no custom equality, so Python compares by object
identity; this model compares by value, which agrees on the only fact
the proofs use — the element found is equal to the one searched for. -/
def pyListIndex {α : Type _} [DecidableEq α] : List α → α → Nat
  | [], _ => 0
  | x :: rest, a => if x = a then 0 else pyListIndex rest a + 1

/-- Model of `_sort_by` (`src/menus.py`): remember the selected item, stably sort
the indented sections by the chosen key, flatten them back into one
list, and relocate the selected item with `list.index`.  `none` models
the `IndexError` of `todos[int(selected)]` for an out-of-range
selection. -/
def sortByKey (key : List Todo → String) (todos : List Todo) (selected : Nat) :
    Option (List Todo × Nat) :=
  match todos.get? selected with
  | Option.none => Option.none
  | some selTd =>
    let sortedTodos :=
      ((getIndentedSections todos).mergeSort (fun a b => decide (key a ≤ key b))).flatten
    some (sortedTodos, pyListIndex sortedTodos selTd)

/-- Model of `make_printable_sublist` from `todo.py` (the viewport windowing).
A short list is returned whole; otherwise the window starts `distance`
above the cursor (default `height * 3 // 7` when `distance < 0`), is
clamped to the list, and is pinned to the final `height` elements when
the slice would come up short.  The slice `lst[start:end]` is modelled by
`drop`/`take`; in every branch reached here `0 ≤ start ≤ end ≤ len`. -/
def makePrintableSublist {α : Type _} (height : Int) (lst : List α) (cursor : Int)
    (distance : Int) : List α × Int :=
  if (lst.length : Int) < height then (lst, cursor)
  else
    let d := if distance < 0 then height * 3 / 7 else distance
    let start := max 0 (cursor - d)
    let e := min (lst.length : Int) (start + height)
    let start' := if e - start < height then (lst.length : Int) - height else start
    let e' := if e - start < height then (lst.length : Int) else e
    ((lst.drop start'.toNat).take ((e' - start').toNat), cursor - start')

lemma lstripLen_replicate_append (n : Nat) (l : List Char) :
    lstripLen (List.replicate n ' ' ++ l) = n + lstripLen l := by
  induction n with
  | zero => simp
  | succ k ih =>
    simp only [List.replicate_succ, List.cons_append, lstripLen, ih]
    norm_num [pyIsSpace]
    omega

lemma lstripLen_cons_of_not_space {c : Char} (rest : List Char) (h : pyIsSpace c = false) :
    lstripLen (c :: rest) = 0 := by
  simp [lstripLen, h]

lemma get?_replicate_append (n k : Nat) (l : List Char) :
    (List.replicate n ' ' ++ l).get? (n + k) = l.get? k := by
  induction n with
  | zero => simp
  | succ m ih =>
    have : m + 1 + k = (m + k) + 1 := by omega
    simp only [List.replicate_succ, List.cons_append, this, List.get?_cons_succ, ih]

lemma drop_replicate_append (n k : Nat) (l : List Char) :
    (List.replicate n ' ' ++ l).drop (n + k) = l.drop k := by
  induction n with
  | zero => simp
  | succ m ih =>
    have : m + 1 + k = (m + k) + 1 := by omega
    simp only [List.replicate_succ, List.cons_append, this, List.drop_succ_cons, ih]

lemma initBoxChar_shift (ind k : Nat) (mid : List Char) :
    initBoxChar (List.replicate ind ' ' ++ mid) (ind + k) =
      ((initBoxChar mid k).1, ind + (initBoxChar mid k).2) := by
  have e1 : ind + k + 1 = ind + (k + 1) := by omega
  simp only [initBoxChar, get?_replicate_append]
  cases mid.get? k with
  | none => rfl
  | some c =>
    by_cases h1 : c = '-' <;> by_cases h2 : c = '+' <;> simp [h1, h2, e1]

lemma initColor_shift (ind k : Nat) (mid : List Char) :
    initColor (List.replicate ind ' ' ++ mid) (ind + k) =
      (initColor mid k).map (fun cp => (cp.1, ind + cp.2)) := by
  have e1 : ind + k + 1 = ind + (k + 1) := by omega
  simp only [initColor, e1, get?_replicate_append]
  cases mid.get? k with
  | none => rfl
  | some c =>
    cases mid.get? (k + 1) with
    | none => rfl
    | some c2 =>
      by_cases h : pyIsDigit c && c2 = ' '
      · have e2 : ind + k + 2 = ind + (k + 2) := by omega
        simp only [h, if_true]
        cases colorOfNat (pyDigitVal c) <;> simp [e1, e2]
      · simp [h]

lemma callInit_replicate (ind : Nat) (mid : List Char) (hne : mid ≠ [])
    (hh : ∀ ch, mid.head? = some ch → pyIsSpace ch = false) :
    callInit (List.replicate ind ' ' ++ mid) =
      (callInitRel mid).map
        (fun r => ⟨r.1, r.2.1, r.2.2, List.replicate ind ' ' ++ mid, ind⟩) := by
  obtain ⟨ch, rest, rfl⟩ : ∃ ch rest, mid = ch :: rest := by
    cases mid with
    | nil => exact absurd rfl hne
    | cons a b => exact ⟨a, b, rfl⟩
  have hws : pyIsSpace ch = false := hh ch rfl
  have hind : lstripLen (List.replicate ind ' ' ++ ch :: rest) = ind := by
    rw [lstripLen_replicate_append, lstripLen_cons_of_not_space _ hws]
    omega
  have hnil : List.replicate ind ' ' ++ ch :: rest ≠ [] := by simp
  rw [callInit, callInitRel]
  simp only [hind, if_neg hnil]
  have hbox : initBoxChar (List.replicate ind ' ' ++ ch :: rest) ind =
      ((initBoxChar (ch :: rest) 0).1, ind + (initBoxChar (ch :: rest) 0).2) := by
    have h0 := initBoxChar_shift ind 0 (ch :: rest)
    simp only [Nat.add_zero] at h0
    exact h0
  rw [hbox, initColor_shift]
  cases hcol : initColor (ch :: rest) (initBoxChar (ch :: rest) 0).2 with
  | none => rfl
  | some cp =>
    simp only [Option.map_some']
    rw [get?_replicate_append]
    by_cases hsep : (ch :: rest).get? cp.2 = some ' '
    · have e2 : ind + cp.2 + 1 = ind + (cp.2 + 1) := by omega
      simp only [hsep, if_true, e2, drop_replicate_append]
    · simp only [if_neg hsep, drop_replicate_append]

lemma get?_zero_eq_head {α : Type _} (l : List α) : l.get? 0 = l.head? := by
  cases l <;> rfl

lemma getElem?_zero_eq_head {α : Type _} (l : List α) : l[0]? = l.head? := by
  cases l <;> simp

/-- The color digit characters `'1'`-`'7'` parse back to their color and
are not markers, spaces or whitespace. -/
lemma colorChar_spec (c : Color) :
    pyIsDigit (colorChar c) = true ∧ colorOfNat (pyDigitVal (colorChar c)) = some c ∧
      colorChar c ≠ '-' ∧ colorChar c ≠ '+' ∧ colorChar c ≠ ' ' ∧
      pyIsSpace (colorChar c) = false := by
  cases c <;> decide

lemma callInitRel_plain (ch : Char) (t : List Char) (h1 : ch ≠ '-') (h2 : ch ≠ '+')
    (h3 : ch ≠ ' ')
    (h4 : ¬(pyIsDigit ch = true ∧ t.head? = some ' ')) :
    callInitRel (ch :: t) = some (BoxChar.none, Color.white, ch :: t) := by
  have hbox : initBoxChar (ch :: t) 0 = (BoxChar.none, 0) := by
    simp [initBoxChar, h1, h2]
  have hcol : initColor (ch :: t) 0 = some (Color.white, 0) := by
    rw [initColor]
    simp only [List.get?_cons_zero, List.get?_cons_succ, get?_zero_eq_head]
    cases hh : t.head? with
    | none => rfl
    | some c2 =>
      have : (pyIsDigit ch && decide (c2 = ' ')) = false := by
        by_cases hd : pyIsDigit ch = true
        · have : c2 ≠ ' ' := fun he => h4 ⟨hd, by rw [hh, he]⟩
          simp [hd, this]
        · simp [Bool.not_eq_true] at hd
          simp [hd]
      simp [this]
  have hsep : (ch :: t).get? 0 ≠ some ' ' := by
    simp only [List.get?_cons_zero]
    exact fun he => h3 (by injection he)
  rw [callInitRel, hbox, hcol]
  simp [h3]

lemma callInitRel_color (c : Color) (t : List Char) (ht : t.head? ≠ some ' ') :
    callInitRel (colorChar c :: ' ' :: t) = some (BoxChar.none, c, t) := by
  obtain ⟨hdig, hofnat, hm1, hm2, hsp, -⟩ := colorChar_spec c
  have hbox : initBoxChar (colorChar c :: ' ' :: t) 0 = (BoxChar.none, 0) := by
    simp [initBoxChar, hm1, hm2]
  have hcol : initColor (colorChar c :: ' ' :: t) 0 = some (c, 2) := by
    rw [initColor]
    simp [hdig, hofnat]
  have hsep : (colorChar c :: ' ' :: t).get? 2 ≠ some ' ' := by
    simp only [List.get?_cons_succ, get?_zero_eq_head]
    exact ht
  rw [callInitRel, hbox, hcol]
  simp [getElem?_zero_eq_head, ht]

lemma callInitRel_marker_sep (mc : Char) (b : BoxChar)
    (hb : (mc = '-' ∧ b = BoxChar.minus) ∨ (mc = '+' ∧ b = BoxChar.plus)) (t : List Char) :
    callInitRel (mc :: ' ' :: t) = some (b, Color.white, t) := by
  have hbox : initBoxChar (mc :: ' ' :: t) 0 = (b, 1) := by
    rcases hb with ⟨rfl, rfl⟩ | ⟨rfl, rfl⟩ <;> simp [initBoxChar]
  have hcol : initColor (mc :: ' ' :: t) 1 = some (Color.white, 1) := by
    rw [initColor]
    simp only [List.get?_cons_succ, get?_zero_eq_head]
    cases t with
    | nil => rfl
    | cons c2 t2 =>
      have hd : pyIsDigit ' ' = false := by decide
      simp [hd]
  have hsep : (mc :: ' ' :: t).get? 1 = some ' ' := by rfl
  rw [callInitRel, hbox, hcol]
  simp [hsep]

lemma callInitRel_marker_color (mc : Char) (b : BoxChar)
    (hb : (mc = '-' ∧ b = BoxChar.minus) ∨ (mc = '+' ∧ b = BoxChar.plus))
    (c : Color) (t : List Char) (ht : t.head? ≠ some ' ') :
    callInitRel (mc :: colorChar c :: ' ' :: t) = some (b, c, t) := by
  obtain ⟨hdig, hofnat, -, -, -, -⟩ := colorChar_spec c
  have hbox : initBoxChar (mc :: colorChar c :: ' ' :: t) 0 = (b, 1) := by
    rcases hb with ⟨rfl, rfl⟩ | ⟨rfl, rfl⟩ <;> simp [initBoxChar]
  have hcol : initColor (mc :: colorChar c :: ' ' :: t) 1 = some (c, 3) := by
    rw [initColor]
    simp [hdig, hofnat]
  have hsep : (mc :: colorChar c :: ' ' :: t).get? 3 ≠ some ' ' := by
    simp only [List.get?_cons_succ, get?_zero_eq_head]
    exact ht
  rw [callInitRel, hbox, hcol]
  simp [getElem?_zero_eq_head, ht]

lemma callInit_spaces (k : Nat) :
    callInit (List.replicate (k + 1) ' ') =
      some ⟨BoxChar.none, Color.white, [], List.replicate (k + 1) ' ', k + 1⟩ := by
  have hind : lstripLen (List.replicate (k + 1) ' ') = k + 1 := by
    have h0 := lstripLen_replicate_append (k + 1) []
    simpa using h0
  have hne : List.replicate (k + 1) ' ' ≠ [] := by simp
  have hget2 : (List.replicate (k + 1) ' ')[k + 1]? = Option.none := by
    apply List.getElem?_eq_none
    simp
  have hbox : initBoxChar (List.replicate (k + 1) ' ') (k + 1) = (BoxChar.none, k + 1) := by
    simp [initBoxChar, hget2]
  have hcol : initColor (List.replicate (k + 1) ' ') (k + 1) = some (Color.white, k + 1) := by
    rw [initColor]
    simp [hget2]
  have hdrop : (List.replicate (k + 1) ' ').drop (k + 1) = [] := by simp
  rw [callInit]
  simp only [hind, if_neg hne, hbox, hcol, hdrop]
  simp [hget2, hdrop]

/-- C1 (amended).  Round trip of the codec: for every grammar line whose
text satisfies `GoodText` — ASCII text without newlines that is non-empty
when a marker is present, does not start with a space when an explicit
color digit is present, and (when neither marker nor color is present)
does not start with whitespace, a marker character, or a digit followed
by a space — decoding then encoding reproduces the line exactly.  The
indent is arbitrary, so in particular any multiple of the indent unit.
(The unamended claim fails: a marker with empty display text is dropped
on encode, see the counterexample.) -/
theorem C1_round_trip (ind : Nat) (m : BoxChar) (c : Color) (t : List Char)
    (hg : GoodText m c t) :
    (callInit (mkLine ind m c t)).map reprTodo = some (mkLine ind m c t) := by
  obtain ⟨-, hmne, hcsp, hplain⟩ := hg
  by_cases hm : m = BoxChar.none
  · subst hm
    by_cases hc : c = Color.white
    · subst hc
      have hline : mkLine ind BoxChar.none Color.white t = List.replicate ind ' ' ++ t := by
        simp [mkLine, boxStr]
      rw [hline]
      cases t with
      | nil =>
        cases ind with
        | zero => rfl
        | succ k =>
          have h1 : List.replicate (k + 1) ' ' ++ ([] : List Char) =
              List.replicate (k + 1) ' ' := by simp
          rw [h1, callInit_spaces]
          simp [reprTodo, boxStr]
      | cons ch t' =>
        obtain ⟨hws, hd1, hd2, hd3⟩ := hplain rfl rfl ch rfl
        rw [callInit_replicate ind (ch :: t') (by simp)
          (fun c2 hc2 => by simp at hc2; rw [← hc2]; exact hws)]
        rw [callInitRel_plain ch t' hd1 hd2
          (fun he => by rw [he] at hws; exact absurd hws (by decide))
          (fun hcontra => hd3 ⟨hcontra.1,
            by rw [List.get?_cons_succ, get?_zero_eq_head]; exact hcontra.2⟩)]
        simp [reprTodo, boxStr]
    · have hline : mkLine ind BoxChar.none c t =
          List.replicate ind ' ' ++ (colorChar c :: ' ' :: t) := by
        simp [mkLine, boxStr, hc]
      obtain ⟨-, -, -, -, -, hcsp'⟩ := colorChar_spec c
      rw [hline]
      rw [callInit_replicate ind (colorChar c :: ' ' :: t) (by simp)
        (fun c2 hc2 => by simp at hc2; rw [← hc2]; exact hcsp')]
      rw [callInitRel_color c t (hcsp hc)]
      simp [reprTodo, boxStr, hc]
  · have ht : t ≠ [] := hmne hm
    have hemp : t.isEmpty = false := by
      cases t with
      | nil => exact absurd rfl ht
      | cons a b => rfl
    by_cases hc : c = Color.white
    · subst hc
      cases m with
      | none => exact absurd rfl hm
      | minus =>
        have hline : mkLine ind BoxChar.minus Color.white t =
            List.replicate ind ' ' ++ ('-' :: ' ' :: t) := by
          simp [mkLine, boxStr]
        rw [hline]
        rw [callInit_replicate ind ('-' :: ' ' :: t) (by simp)
          (fun c2 hc2 => by simp at hc2; rw [← hc2]; decide)]
        rw [callInitRel_marker_sep '-' BoxChar.minus (Or.inl ⟨rfl, rfl⟩) t]
        simp [reprTodo, boxStr, hemp]
      | plus =>
        have hline : mkLine ind BoxChar.plus Color.white t =
            List.replicate ind ' ' ++ ('+' :: ' ' :: t) := by
          simp [mkLine, boxStr]
        rw [hline]
        rw [callInit_replicate ind ('+' :: ' ' :: t) (by simp)
          (fun c2 hc2 => by simp at hc2; rw [← hc2]; decide)]
        rw [callInitRel_marker_sep '+' BoxChar.plus (Or.inr ⟨rfl, rfl⟩) t]
        simp [reprTodo, boxStr, hemp]
    · cases m with
      | none => exact absurd rfl hm
      | minus =>
        have hline : mkLine ind BoxChar.minus c t =
            List.replicate ind ' ' ++ ('-' :: colorChar c :: ' ' :: t) := by
          simp [mkLine, boxStr, hc]
        rw [hline]
        rw [callInit_replicate ind ('-' :: colorChar c :: ' ' :: t) (by simp)
          (fun c2 hc2 => by simp at hc2; rw [← hc2]; decide)]
        rw [callInitRel_marker_color '-' BoxChar.minus (Or.inl ⟨rfl, rfl⟩) c t (hcsp hc)]
        simp [reprTodo, boxStr, hemp, hc]
      | plus =>
        have hline : mkLine ind BoxChar.plus c t =
            List.replicate ind ' ' ++ ('+' :: colorChar c :: ' ' :: t) := by
          simp [mkLine, boxStr, hc]
        rw [hline]
        rw [callInit_replicate ind ('+' :: colorChar c :: ' ' :: t) (by simp)
          (fun c2 hc2 => by simp at hc2; rw [← hc2]; decide)]
        rw [callInitRel_marker_color '+' BoxChar.plus (Or.inr ⟨rfl, rfl⟩) c t (hcsp hc)]
        simp [reprTodo, boxStr, hemp, hc]

/-- C1 witness: the round-trip theorem applied to the concrete line
`"  -3 hi"` (indent 2, checked-off marker absent, unchecked marker,
yellow color, text `hi`). -/
theorem C1_round_trip_witness :
    (callInit (mkLine 2 BoxChar.minus Color.yellow ['h', 'i'])).map reprTodo =
      some (mkLine 2 BoxChar.minus Color.yellow ['h', 'i']) :=
  C1_round_trip 2 BoxChar.minus Color.yellow ['h', 'i']
    ⟨by decide, fun _ => by decide, fun _ => by decide, fun h => absurd h (by decide)⟩

/-- C1 counterexample: the line consisting of a marker character alone —
explicitly covered by the claim — does not round-trip: decoding `"-"`
yields a marker with empty display text, and the encoder omits the
marker of an empty item, so the re-encoded line is `""`. -/
theorem C1_counterexample :
    (callInit ['-']).map reprTodo = some [] ∧
      (callInit ['-']).map reprTodo ≠ some ['-'] := by
  constructor
  · decide
  · decide

lemma callInitRel_bad_digit_plain (d : Char) (rest : List Char)
    (h : colorOfNat (pyDigitVal d) = Option.none) (h1 : d ≠ '-') (h2 : d ≠ '+')
    (hdig : pyIsDigit d = true) :
    callInitRel (d :: ' ' :: rest) = Option.none := by
  have hbox : initBoxChar (d :: ' ' :: rest) 0 = (BoxChar.none, 0) := by
    simp [initBoxChar, h1, h2]
  have hcol : initColor (d :: ' ' :: rest) 0 = Option.none := by
    rw [initColor]
    simp [hdig, h]
  rw [callInitRel, hbox, hcol]

lemma callInitRel_bad_digit_marker (mc : Char) (hmc : mc = '-' ∨ mc = '+')
    (d : Char) (rest : List Char)
    (h : colorOfNat (pyDigitVal d) = Option.none) (hdig : pyIsDigit d = true) :
    callInitRel (mc :: d :: ' ' :: rest) = Option.none := by
  have hbox : (initBoxChar (mc :: d :: ' ' :: rest) 0).2 = 1 := by
    rcases hmc with rfl | rfl <;> simp [initBoxChar]
  have hcol : initColor (mc :: d :: ' ' :: rest) 1 = Option.none := by
    rw [initColor]
    simp [hdig, h]
  rw [callInitRel, hbox, hcol]

/-- C4 (amended).  A digit outside 1-7 (0, 8 or 9) immediately after the
indent and optional marker, followed by a space, does not leave decode
with the digit kept in `display_text`: decode fails, because the digit
passes the `isdigit` guard and is handed to the `Color` constructor,
which raises `ValueError` for values outside 1-7 (modelled as `none`). -/
theorem C4_bad_digit (ind : Nat) (m : BoxChar) (d : Char) (rest : List Char)
    (hd : d = '0' ∨ d = '8' ∨ d = '9') :
    callInit (List.replicate ind ' ' ++ (boxStr m ++ d :: ' ' :: rest)) = Option.none := by
  have hofnat : colorOfNat (pyDigitVal d) = Option.none := by
    rcases hd with rfl | rfl | rfl <;> decide
  have hdig : pyIsDigit d = true := by
    rcases hd with rfl | rfl | rfl <;> decide
  have hdws : pyIsSpace d = false := by
    rcases hd with rfl | rfl | rfl <;> decide
  have hd1 : d ≠ '-' := by rcases hd with rfl | rfl | rfl <;> decide
  have hd2 : d ≠ '+' := by rcases hd with rfl | rfl | rfl <;> decide
  cases m with
  | none =>
    rw [show boxStr BoxChar.none ++ d :: ' ' :: rest = d :: ' ' :: rest from rfl]
    rw [callInit_replicate ind (d :: ' ' :: rest) (by simp)
      (fun c2 hc2 => by simp at hc2; rw [← hc2]; exact hdws)]
    rw [callInitRel_bad_digit_plain d rest hofnat hd1 hd2 hdig]
    rfl
  | minus =>
    rw [show boxStr BoxChar.minus ++ d :: ' ' :: rest = '-' :: d :: ' ' :: rest from rfl]
    rw [callInit_replicate ind ('-' :: d :: ' ' :: rest) (by simp)
      (fun c2 hc2 => by simp at hc2; rw [← hc2]; decide)]
    rw [callInitRel_bad_digit_marker '-' (Or.inl rfl) d rest hofnat hdig]
    rfl
  | plus =>
    rw [show boxStr BoxChar.plus ++ d :: ' ' :: rest = '+' :: d :: ' ' :: rest from rfl]
    rw [callInit_replicate ind ('+' :: d :: ' ' :: rest) (by simp)
      (fun c2 hc2 => by simp at hc2; rw [← hc2]; decide)]
    rw [callInitRel_bad_digit_marker '+' (Or.inr rfl) d rest hofnat hdig]
    rfl

/-- C4 witness: the amended theorem applied to the line `"8 x"`. -/
theorem C4_bad_digit_witness :
    callInit (List.replicate 0 ' ' ++ (boxStr BoxChar.none ++ '8' :: ' ' :: ['x'])) =
      Option.none :=
  C4_bad_digit 0 BoxChar.none '8' ['x'] (Or.inr (Or.inl rfl))

/-- C4 counterexample: decoding the line `"0 x"` does not succeed (the
claim says it succeeds with the `0` kept in the display text); instead
the embedded decoder returns `none`, modelling the `ValueError` raised
by `Color(0)`. -/
theorem C4_counterexample : callInit ['0', ' ', 'x'] = Option.none := by
  decide

lemma cursor_start_mk (a b : Int) (d : Direction) : (Cursor.mk a b d).start = a := rfl

lemma cursor_stop_mk (a b : Int) (d : Direction) : (Cursor.mk a b d).stop = b := rfl

lemma cursor_direction_mk (a b : Int) (d : Direction) :
    (Cursor.mk a b d).direction = d := rfl

lemma cursorInv_mk_iff (m a b : Int) (d : Direction) :
    CursorInv m ⟨a, b, d⟩ ↔ 0 ≤ a ∧ a < b ∧ b ≤ m := Iff.rfl

lemma multiselectUp_pres (m : Int) (c : Cursor) (h : CursorInv m c)
    (hz : 1 ≤ c.start ∨ c.direction = Direction.up ∨ c.start + 1 < c.stop) :
    CursorInv m c.multiselectUp ∧ c.start - 1 ≤ c.multiselectUp.start := by
  obtain ⟨a, b, d⟩ := c
  simp only [CursorInv, cursor_start_mk, cursor_stop_mk, cursor_direction_mk] at h hz
  obtain ⟨h1, h2, h3⟩ := h
  simp only [Cursor.multiselectUp, cursor_start_mk, cursor_stop_mk, cursor_direction_mk]
  by_cases g1 : a = 0 ∧ d = Direction.up
  · rw [if_pos g1]
    exact ⟨⟨h1, h2, h3⟩, by rw [cursor_start_mk]; omega⟩
  · rw [if_neg g1]
    by_cases g2 : b - a = 1 ∨ d = Direction.up
    · rw [if_pos g2]
      have hs : 1 ≤ a := by
        rcases hz with hz | hz | hz
        · exact hz
        · have ha : a ≠ 0 := fun h0 => g1 ⟨h0, hz⟩
          omega
        · rcases g2 with g2 | g2
          · omega
          · have ha : a ≠ 0 := fun h0 => g1 ⟨h0, g2⟩
            omega
      rw [cursorInv_mk_iff, cursor_start_mk]
      exact ⟨⟨by omega, by omega, h3⟩, by omega⟩
    · rw [if_neg g2]
      have g3 : b - a > 1 := by
        have hne : b - a ≠ 1 := fun h0 => g2 (Or.inl h0)
        omega
      rw [if_pos g3, cursorInv_mk_iff, cursor_start_mk]
      exact ⟨⟨h1, by omega, by omega⟩, by omega⟩

lemma multiselectDown_pres (m : Int) (c : Cursor) (h : CursorInv m c) :
    CursorInv m (c.multiselectDown m) := by
  obtain ⟨a, b, d⟩ := c
  simp only [CursorInv, cursor_start_mk, cursor_stop_mk, cursor_direction_mk] at h
  obtain ⟨h1, h2, h3⟩ := h
  simp only [Cursor.multiselectDown, cursor_start_mk, cursor_stop_mk, cursor_direction_mk]
  by_cases g1 : b - 1 ≥ m - 1
  · rw [if_pos g1]
    exact ⟨h1, h2, h3⟩
  · rw [if_neg g1]
    by_cases g2 : b - a = 1 ∨ d = Direction.down
    · rw [if_pos g2, cursorInv_mk_iff]
      exact ⟨h1, by omega, by omega⟩
    · rw [if_neg g2]
      by_cases g3 : b - a > 1
      · rw [if_pos g3, cursorInv_mk_iff]
        exact ⟨by omega, by omega, h3⟩
      · rw [if_neg g3]
        exact ⟨h1, h2, h3⟩

lemma multiselectUp_iterate (m : Int) (n : Nat) (c : Cursor) (h : CursorInv m c)
    (hn : (n : Int) ≤ c.start) : CursorInv m (Cursor.multiselectUp^[n] c) := by
  induction n generalizing c with
  | zero => simpa using h
  | succ k ih =>
    rw [Function.iterate_succ_apply]
    have hz : 1 ≤ c.start := by push_cast at hn; omega
    obtain ⟨hInv, hstart⟩ := multiselectUp_pres m c h (Or.inl hz)
    refine ih c.multiselectUp hInv ?_
    push_cast at hn ⊢
    omega

lemma multiselectDown_iterate (m : Int) (n : Nat) (c : Cursor) (h : CursorInv m c) :
    CursorInv m ((fun x => x.multiselectDown m)^[n] c) := by
  induction n generalizing c with
  | zero => simpa using h
  | succ k ih =>
    rw [Function.iterate_succ_apply]
    exact ih _ (multiselectDown_pres m c h)

/-- C2 (amended).  Cursor range invariant: starting from any state with
`0 ≤ start < stop ≤ max_len`, the operations `set_to` (with an in-range
argument), `single_up`, `single_down`, `slide_up`, `slide_down`,
`multiselect_down`, `multiselect_top`, `multiselect_bottom` and
`multiselect_all` (select-all) all preserve the invariant, and so does
`multiselect_up` except in one state: a length-1 selection at
`start == 0` whose stored direction is not `up`, where `_select_prev`
runs unguarded and `start` becomes `-1`, one below the valid range (no
exception is raised; the state is simply out of bounds). -/
theorem C2_cursor_invariant (maxLen : Int) (c : Cursor) (hInv : CursorInv maxLen c) :
    (∀ i : Int, 0 ≤ i → i < maxLen → CursorInv maxLen (c.setTo i)) ∧
    CursorInv maxLen (c.singleUp maxLen) ∧
    CursorInv maxLen (c.singleDown maxLen) ∧
    CursorInv maxLen c.slideUp ∧
    CursorInv maxLen (c.slideDown maxLen) ∧
    (¬(c.start = 0 ∧ c.stop = 1 ∧ c.direction ≠ Direction.up) →
      CursorInv maxLen c.multiselectUp) ∧
    (c.start = 0 → c.stop = 1 → c.direction ≠ Direction.up →
      c.multiselectUp.start = -1) ∧
    CursorInv maxLen (c.multiselectDown maxLen) ∧
    CursorInv maxLen c.multiselectTop ∧
    CursorInv maxLen (c.multiselectBottom maxLen) ∧
    CursorInv maxLen (c.multiselectAll maxLen) := by
  obtain ⟨ha, hab, hb⟩ := hInv
  refine ⟨?_, ?_, ?_, ?_, ?_, ?_, ?_, ?_, ?_, ?_, ?_⟩
  · intro i hi him
    show CursorInv maxLen ⟨i, i + 1, c.direction⟩
    rw [cursorInv_mk_iff]
    omega
  · obtain ⟨a, b, d⟩ := c
    simp only [CursorInv, cursor_start_mk, cursor_stop_mk] at ha hab hb
    simp only [Cursor.singleUp, Cursor.setTo, cursor_start_mk, cursor_stop_mk,
      cursor_direction_mk]
    split_ifs <;>
      simp only [cursorInv_mk_iff, cursor_start_mk, cursor_stop_mk, cursor_direction_mk] <;>
      omega
  · obtain ⟨a, b, d⟩ := c
    simp only [CursorInv, cursor_start_mk, cursor_stop_mk] at ha hab hb
    simp only [Cursor.singleDown, Cursor.setTo, cursor_start_mk, cursor_stop_mk,
      cursor_direction_mk]
    by_cases gA : b - a = maxLen
    · rw [if_pos gA]
      simp only [cursor_start_mk, cursor_stop_mk, cursor_direction_mk]
      by_cases gB : a + 1 - 1 ≥ maxLen - 1
      · rw [if_pos gB, cursorInv_mk_iff]
        omega
      · rw [if_neg gB]
        simp only [cursorInv_mk_iff, cursor_start_mk, cursor_stop_mk]
        omega
    · rw [if_neg gA]
      simp only [cursor_start_mk, cursor_stop_mk, cursor_direction_mk]
      by_cases gB : b - 1 ≥ maxLen - 1
      · rw [if_pos gB, cursorInv_mk_iff]
        omega
      · rw [if_neg gB]
        simp only [cursorInv_mk_iff, cursor_start_mk, cursor_stop_mk]
        omega
  · obtain ⟨a, b, d⟩ := c
    simp only [CursorInv, cursor_start_mk, cursor_stop_mk] at ha hab hb
    simp only [Cursor.slideUp, cursor_start_mk, cursor_stop_mk, cursor_direction_mk]
    split_ifs <;>
      simp only [cursorInv_mk_iff, cursor_start_mk, cursor_stop_mk, cursor_direction_mk] <;>
      omega
  · obtain ⟨a, b, d⟩ := c
    simp only [CursorInv, cursor_start_mk, cursor_stop_mk] at ha hab hb
    simp only [Cursor.slideDown, cursor_start_mk, cursor_stop_mk, cursor_direction_mk]
    split_ifs <;>
      simp only [cursorInv_mk_iff, cursor_start_mk, cursor_stop_mk, cursor_direction_mk] <;>
      omega
  · intro hgood
    apply (multiselectUp_pres maxLen c ⟨ha, hab, hb⟩ ?_).1
    by_cases h0 : c.start = 0
    · by_cases hd : c.direction = Direction.up
      · exact Or.inr (Or.inl hd)
      · have hstop : c.stop ≠ 1 := fun h1 => hgood ⟨h0, h1, hd⟩
        exact Or.inr (Or.inr (by omega))
    · exact Or.inl (by omega)
  · intro h0 h1 hd
    obtain ⟨a, b, d⟩ := c
    simp only [cursor_start_mk, cursor_stop_mk, cursor_direction_mk] at h0 h1 hd
    subst h0
    subst h1
    simp only [Cursor.multiselectUp, cursor_start_mk, cursor_stop_mk, cursor_direction_mk]
    rw [if_neg (fun hcon => hd hcon.2), if_pos (Or.inl (by omega)), cursor_start_mk]
    omega
  · exact multiselectDown_pres maxLen c ⟨ha, hab, hb⟩
  · exact multiselectUp_iterate maxLen c.start.toNat c ⟨ha, hab, hb⟩ (by omega)
  · exact multiselectDown_iterate maxLen _ c ⟨ha, hab, hb⟩
  · show CursorInv maxLen ⟨0, maxLen, c.direction⟩
    rw [cursorInv_mk_iff]
    omega

/-- C2 witness: the invariant-preservation theorem applied to the
length-1 cursor at position 1 in a list of length 3; in particular
`multiselect_up` keeps it in range there. -/
theorem C2_cursor_invariant_witness :
    CursorInv 3 ((⟨1, 2, Direction.none⟩ : Cursor).multiselectUp) :=
  (C2_cursor_invariant 3 ⟨1, 2, Direction.none⟩ (by decide)).2.2.2.2.2.1 (by decide)

/-- C2 counterexample: `multiselect_up` on a length-1 selection at
`start == 0` with stored direction `none` (for example a freshly created
cursor) moves `start` to `-1`, so the claimed invariant — highlighted by
the claim for exactly this state — fails after the call. -/
theorem C2_counterexample :
    CursorInv 1 ⟨0, 1, Direction.none⟩ ∧
      (⟨0, 1, Direction.none⟩ : Cursor).multiselectUp = ⟨-1, 1, Direction.up⟩ ∧
      ¬CursorInv 1 ((⟨0, 1, Direction.none⟩ : Cursor).multiselectUp) := by
  refine ⟨by decide, by decide, by decide⟩

/-- C6 (confirmed).  Selection collapse/regrow cancellation: from a
length-1 selection at `p` with `0 < p < n - 1` and any stored direction,
`multiselect_down` grows to `[p, p + 2)` going down, and the following
`multiselect_up` sees a direction mismatch and shrinks from the bottom,
returning to the length-1 selection at `p`. -/
theorem C6_collapse_regrow (n p : Int) (d : Direction) (h1 : 0 < p) (h2 : p < n - 1) :
    ((⟨p, p + 1, d⟩ : Cursor).multiselectDown n).multiselectUp =
      ⟨p, p + 1, Direction.down⟩ := by
  have hdown : (⟨p, p + 1, d⟩ : Cursor).multiselectDown n =
      ⟨p, p + 2, Direction.down⟩ := by
    simp only [Cursor.multiselectDown, cursor_start_mk, cursor_stop_mk, cursor_direction_mk]
    rw [if_neg (by omega), if_pos (Or.inl (by omega))]
    simp only [Cursor.mk.injEq, and_true, true_and]
    omega
  rw [hdown]
  simp only [Cursor.multiselectUp, cursor_start_mk, cursor_stop_mk, cursor_direction_mk]
  rw [if_neg (fun hcon => absurd hcon.1 (by omega)),
    if_neg (fun hcon => hcon.elim (fun hc => absurd hc (by omega))
      (fun hc => absurd hc (by decide))),
    if_pos (by omega)]
  simp only [Cursor.mk.injEq, and_true, true_and]
  omega

/-- C6 witness: the cancellation theorem at `p = 1` in a list of length
3, starting with stored direction `none`. -/
theorem C6_collapse_regrow_witness :
    ((⟨1, 2, Direction.none⟩ : Cursor).multiselectDown 3).multiselectUp =
      ⟨1, 2, Direction.down⟩ :=
  C6_collapse_regrow 3 1 Direction.none (by decide) (by decide)

/-- C7 (amended).  For a length-1 selection with `max_len ≥ 2`,
`single_up` and `single_down` move by one index and clamp at `0` and
`max_len - 1` (no wraparound), exactly as claimed.  When the entire list
is selected, however, `single_up` collapses the cursor to position 0
(not `max_len - 1`), and `single_down` collapses it to position 0 and
then — the collapsing `set_to` not being followed by a `return` — falls
through and moves one step down, ending at position 1 (not 0). -/
theorem C7_single_moves (maxLen p : Int) (d : Direction) :
    (2 ≤ maxLen → 0 ≤ p → p < maxLen →
      (0 < p → (⟨p, p + 1, d⟩ : Cursor).singleUp maxLen = ⟨p - 1, p, d⟩) ∧
      (p = 0 → (⟨p, p + 1, d⟩ : Cursor).singleUp maxLen = ⟨0, 1, d⟩) ∧
      (p < maxLen - 1 → (⟨p, p + 1, d⟩ : Cursor).singleDown maxLen = ⟨p + 1, p + 2, d⟩) ∧
      (p = maxLen - 1 → (⟨p, p + 1, d⟩ : Cursor).singleDown maxLen = ⟨p, p + 1, d⟩)) ∧
    (2 ≤ maxLen →
      (⟨0, maxLen, d⟩ : Cursor).singleUp maxLen = ⟨0, 1, d⟩ ∧
      (⟨0, maxLen, d⟩ : Cursor).singleDown maxLen = ⟨1, 2, d⟩) := by
  constructor
  · intro hm hp hpm
    refine ⟨?_, ?_, ?_, ?_⟩
    · intro h0
      simp only [Cursor.singleUp, Cursor.setTo, cursor_start_mk, cursor_stop_mk,
        cursor_direction_mk]
      rw [if_neg (by omega), if_neg (by omega)]
      simp only [Cursor.mk.injEq, and_true, true_and]
      omega
    · intro h0
      subst h0
      simp only [Cursor.singleUp, Cursor.setTo, cursor_start_mk, cursor_stop_mk,
        cursor_direction_mk]
      rw [if_neg (by omega)]
      simp
    · intro h0
      simp only [Cursor.singleDown, Cursor.setTo, cursor_start_mk, cursor_stop_mk,
        cursor_direction_mk, ite_self]
      rw [if_neg (by omega)]
      simp only [Cursor.mk.injEq, and_true, true_and]
      omega
    · intro h0
      simp only [Cursor.singleDown, Cursor.setTo, cursor_start_mk, cursor_stop_mk,
        cursor_direction_mk, ite_self]
      rw [if_pos (by omega)]
  · intro hm
    constructor
    · simp only [Cursor.singleUp, Cursor.setTo, cursor_start_mk, cursor_stop_mk,
        cursor_direction_mk]
      rw [if_pos (by omega)]
      simp only [Cursor.mk.injEq, and_true, true_and]
      omega
    · simp only [Cursor.singleDown, Cursor.setTo, cursor_start_mk, cursor_stop_mk,
        cursor_direction_mk]
      have hc1 : (if maxLen - 0 = maxLen then (⟨0, 0 + 1, d⟩ : Cursor) else ⟨0, maxLen, d⟩) =
          (⟨0, 0 + 1, d⟩ : Cursor) := if_pos (by omega)
      rw [hc1]
      simp only [cursor_start_mk, cursor_stop_mk, cursor_direction_mk]
      rw [if_neg (by omega)]
      simp only [Cursor.mk.injEq, and_true, true_and]
      omega

/-- C7 witness: in a list of length 4 with the cursor at 2, `single_up`
moves to 1; and with the whole list selected, `single_up` collapses to
0. -/
theorem C7_single_moves_witness :
    (⟨2, 3, Direction.none⟩ : Cursor).singleUp 4 = ⟨1, 2, Direction.none⟩ ∧
      (⟨0, 4, Direction.none⟩ : Cursor).singleUp 4 = ⟨0, 1, Direction.none⟩ :=
  ⟨((C7_single_moves 4 2 Direction.none).1 (by decide) (by decide) (by decide)).1 (by decide),
    ((C7_single_moves 4 0 Direction.none).2 (by decide)).1⟩

/-- C7 counterexample: with the entire list of length 3 selected,
`single_up` lands at position 0, not `max_len - 1 = 2` as the claim
states, and `single_down` lands at position 1, not 0. -/
theorem C7_counterexample :
    ((⟨0, 3, Direction.none⟩ : Cursor).singleUp 3).start = 0 ∧ (0 : Int) ≠ 3 - 1 ∧
      ((⟨0, 3, Direction.none⟩ : Cursor).singleDown 3).start = 1 ∧ (1 : Int) ≠ 0 := by
  refine ⟨by decide, by decide, by decide, by decide⟩

/-- C3 (amended).  With a non-empty history, `undo` at the earliest
entry (`index == 0`) and `redo` at the latest (`index == len - 1`) are
no-ops: the index does not move and the snapshot at the current index is
returned.  (On an *empty* history — `index == -1` — both raise
`IndexError` instead of returning anything; see the counterexample.) -/
theorem C3_history_noops (h : UndoRedo) (hne : h.history ≠ []) :
    (h.index = 0 → h.undo = some (h, h.history.head hne)) ∧
    (h.index = (h.history.length : Int) - 1 →
      h.redo = some (h, h.history.getLast hne)) := by
  constructor
  · intro hidx
    have heta : (⟨h.history, h.index⟩ : UndoRedo) = h := rfl
    simp only [UndoRedo.undo, hidx, if_neg (by omega : ¬((0 : Int) > 0))]
    have hp : pyIndex h.history (0 : Int) = some (h.history.head hne) := by
      simp only [pyIndex, if_pos (le_refl (0 : Int)), Int.toNat_zero,
        get?_zero_eq_head]
      exact List.head?_eq_head hne
    rw [hp, Option.map_some', ← hidx, heta]
  · intro hidx
    have hlen : 1 ≤ h.history.length := by
      cases hl : h.history with
      | nil => exact absurd hl hne
      | cons a b => simp [hl]
    have heta : (⟨h.history, h.index⟩ : UndoRedo) = h := rfl
    simp only [UndoRedo.redo, hidx, if_neg (by omega : ¬((h.history.length : Int) - 1 <
      (h.history.length : Int) - 1))]
    have hnat : ((h.history.length : Int) - 1).toNat = h.history.length - 1 := by omega
    have hlt : h.history.length - 1 < h.history.length := by omega
    have hp : pyIndex h.history ((h.history.length : Int) - 1) =
        some (h.history.getLast hne) := by
      simp only [pyIndex, if_pos (by omega : (0 : Int) ≤ (h.history.length : Int) - 1), hnat]
      rw [List.get?_eq_get hlt, List.getLast_eq_get]
    rw [hp, Option.map_some', ← hidx, heta]

/-- C3 witness: after recording one snapshot the index is 0; `undo`
returns the history state unchanged together with that snapshot. -/
theorem C3_history_noops_witness :
    (UndoRedo.add emptyUndoRedo [] 0).undo =
      some (UndoRedo.add emptyUndoRedo [] 0,
        (UndoRedo.add emptyUndoRedo [] 0).history.head (by decide)) :=
  (C3_history_noops (UndoRedo.add emptyUndoRedo [] 0) (by decide)).1 (by decide)

/-- C3 counterexample: `undo` on the freshly constructed history
(`history == []`, `index == -1`) does not return the unchanged current
state — `self.history[self.index]` raises `IndexError` on the empty
list, modelled here by `none`. -/
theorem C3_counterexample : emptyUndoRedo.undo = Option.none := by
  decide

/-- C10 (confirmed).  Recording an empty list stores the empty joined
string; `undo` (and `redo`) return that snapshot unchanged, and decoding
it yields exactly one blank item — empty display text — rather than the
empty list, because splitting the empty string produces one empty
entry. -/
theorem C10_empty_snapshot (sel : Int) :
    (UndoRedo.add emptyUndoRedo [] sel).undo =
      some (UndoRedo.add emptyUndoRedo [] sel, mkRestorable [] sel) ∧
    (UndoRedo.add emptyUndoRedo [] sel).redo =
      some (UndoRedo.add emptyUndoRedo [] sel, mkRestorable [] sel) ∧
    restorableGet (mkRestorable [] sel) =
      some ([⟨BoxChar.minus, Color.white, [], [], 0⟩], sel) ∧
    (⟨BoxChar.minus, Color.white, [], [], 0⟩ : Todo).display_text = [] :=
  ⟨rfl, rfl, rfl, rfl⟩

/-- C5 (confirmed).  Windowing size: for `height ≥ 1` and a cursor
`0 ≤ c < n`, `make_printable_sublist` with the default margin returns a
sublist of length `min height n` and an adjusted cursor inside
`[0, returned_length)`. -/
theorem C5_windowing {α : Type _} (height : Int) (lst : List α) (c : Int)
    (h1 : 1 ≤ height) (h2 : 0 ≤ c) (h3 : c < (lst.length : Int)) :
    ((makePrintableSublist height lst c (-1)).1.length : Int) =
        min height (lst.length : Int) ∧
      0 ≤ (makePrintableSublist height lst c (-1)).2 ∧
      (makePrintableSublist height lst c (-1)).2 <
        ((makePrintableSublist height lst c (-1)).1.length : Int) := by
  by_cases hb : (lst.length : Int) < height
  · simp only [makePrintableSublist, if_pos hb]
    exact ⟨by omega, h2, by omega⟩
  · simp only [makePrintableSublist, if_neg hb]
    rw [if_pos (show (-1 : Int) < 0 by norm_num)]
    have hd0 : 0 ≤ height * 3 / 7 := by positivity
    have hdh : height * 3 / 7 < height := by
      have h7 : (0 : Int) < 7 := by norm_num
      rw [Int.ediv_lt_iff_lt_mul h7]
      omega
    by_cases hre : min (lst.length : Int) (max 0 (c - height * 3 / 7) + height) -
        max 0 (c - height * 3 / 7) < height
    · rw [if_pos hre, if_pos hre]
      refine ⟨?_, ?_, ?_⟩
      · rw [List.length_take, List.length_drop]
        omega
      · omega
      · rw [List.length_take, List.length_drop]
        omega
    · rw [if_neg hre, if_neg hre]
      refine ⟨?_, ?_, ?_⟩
      · rw [List.length_take, List.length_drop]
        omega
      · omega
      · rw [List.length_take, List.length_drop]
        omega

/-- C5 witness: a list of 10 elements, height 5, cursor at 8 — the
window pins to the last five elements and the adjusted cursor is 3
(the specification's own scenario). -/
theorem C5_windowing_witness :
    ((makePrintableSublist 5 [0, 1, 2, 3, 4, 5, 6, 7, 8, 9] 8 (-1)).1.length : Int) =
        min 5 ((10 : Nat) : Int) ∧
      0 ≤ (makePrintableSublist 5 [0, 1, 2, 3, 4, 5, 6, 7, 8, 9] 8 (-1)).2 ∧
      (makePrintableSublist 5 [0, 1, 2, 3, 4, 5, 6, 7, 8, 9] 8 (-1)).2 <
        ((makePrintableSublist 5 [0, 1, 2, 3, 4, 5, 6, 7, 8, 9] 8 (-1)).1.length : Int) :=
  C5_windowing 5 [0, 1, 2, 3, 4, 5, 6, 7, 8, 9] 8 (by norm_num) (by norm_num) (by norm_num)

lemma get?_drop' {α : Type _} (n : Nat) : ∀ (l : List α) (m : Nat),
    (l.drop n).get? m = l.get? (n + m) := by
  induction n with
  | zero => intro l m; simp
  | succ k ih =>
    intro l m
    cases l with
    | nil => simp
    | cons a l' =>
      have he : k + 1 + m = (k + m) + 1 := by omega
      simp only [List.drop_succ_cons, he, List.get?_cons_succ]
      exact ih l' m

lemma searchGo_of_none (seq : List Char) :
    ∀ (l : List Todo) (base : Nat),
      (∀ td ∈ l, isSubstring seq td.display_text = false) → searchGo seq l base = 0
  | [], _, _ => rfl
  | td :: rest, base, h => by
    have h0 := h td (List.mem_cons_self td rest)
    rw [searchGo, h0, if_neg (by simp)]
    exact searchGo_of_none seq rest (base + 1)
      (fun td' hm => h td' (List.mem_cons_of_mem _ hm))

lemma searchGo_of_found (seq : List Char) :
    ∀ (l : List Todo) (base j : Nat) (td : Todo),
      l.get? j = some td → isSubstring seq td.display_text = true →
      ∃ k td', k ≤ j ∧ searchGo seq l base = base + k ∧ l.get? k = some td' ∧
        isSubstring seq td'.display_text = true ∧
        (∀ i tdi, i < k → l.get? i = some tdi →
          isSubstring seq tdi.display_text = false) := by
  intro l
  induction l with
  | nil => intro base j td hj; simp at hj
  | cons hd rest ih =>
    intro base j td hj hmatch
    by_cases hh : isSubstring seq hd.display_text = true
    · refine ⟨0, hd, Nat.zero_le j, ?_, rfl, hh, fun i tdi hi _ => absurd hi (by omega)⟩
      rw [searchGo, if_pos hh]
      omega
    · cases j with
      | zero =>
        simp only [List.get?_cons_zero, Option.some.injEq] at hj
        exact absurd (hj ▸ hmatch) hh
      | succ j' =>
        simp only [List.get?_cons_succ] at hj
        obtain ⟨k, td', hkle, heq, hget, hm', hbefore⟩ :=
          ih (base + 1) j' td hj hmatch
        refine ⟨k + 1, td', by omega, ?_, by simpa using hget, hm', ?_⟩
        · rw [searchGo, if_neg hh]
          omega
        · intro i tdi hi hgi
          cases i with
          | zero =>
            simp only [List.get?_cons_zero, Option.some.injEq] at hgi
            subst hgi
            exact eq_false_of_ne_true hh
          | succ i' =>
            simp only [List.get?_cons_succ] at hgi
            exact hbefore i' tdi (by omega) hgi

/-- C9 (confirmed).  Search semantics: the scan starts at the current
selection `s` inclusive; if no item from `s` onward contains the query
as a substring of its display text, the cursor is reset to 0; if some
item at `i ≥ s` matches, the cursor lands on an index in `[s, i]` whose
item matches while every index in `[s, r)` does not — i.e. the smallest
matching index `≥ s`.  Items before `s` are never examined. -/
theorem C9_search (todos : List Todo) (seq : List Char) (s : Nat) :
    ((∀ i td, s ≤ i → todos.get? i = some td →
        isSubstring seq td.display_text = false) → searchIndex todos seq s = 0) ∧
    (∀ i td, s ≤ i → todos.get? i = some td →
      isSubstring seq td.display_text = true →
      s ≤ searchIndex todos seq s ∧ searchIndex todos seq s ≤ i ∧
        (∃ td', todos.get? (searchIndex todos seq s) = some td' ∧
          isSubstring seq td'.display_text = true) ∧
        (∀ j tdj, s ≤ j → j < searchIndex todos seq s → todos.get? j = some tdj →
          isSubstring seq tdj.display_text = false)) := by
  constructor
  · intro h
    apply searchGo_of_none
    intro td hm
    obtain ⟨n, hn⟩ := List.mem_iff_get?.mp hm
    rw [get?_drop'] at hn
    exact h (s + n) td (by omega) hn
  · intro i td hsi hget hmatch
    have hj : (todos.drop s).get? (i - s) = some td := by
      rw [get?_drop']
      have he : s + (i - s) = i := by omega
      rw [he]
      exact hget
    obtain ⟨k, td', hkle, heq, hget', hm', hbefore⟩ :=
      searchGo_of_found seq (todos.drop s) s (i - s) td hj hmatch
    have hr : searchIndex todos seq s = s + k := heq
    refine ⟨by omega, by omega, ⟨td', ?_, hm'⟩, ?_⟩
    · rw [hr, ← get?_drop']
      exact hget'
    · intro j tdj hsj hjr hgj
      rw [hr] at hjr
      have hj' : (todos.drop s).get? (j - s) = some tdj := by
        rw [get?_drop']
        have he : s + (j - s) = j := by omega
        rw [he]
        exact hgj
      exact hbefore (j - s) tdj (by omega) hj'

/-- C9 witness: searching for `"a"` from position 0 in the one-item list
whose display text is `"a"` finds it at position 0. -/
theorem C9_search_witness :
    0 ≤ searchIndex [⟨BoxChar.none, Color.white, ['a'], ['a'], 0⟩] ['a'] 0 ∧
      searchIndex [⟨BoxChar.none, Color.white, ['a'], ['a'], 0⟩] ['a'] 0 ≤ 0 ∧
      (∃ td', [(⟨BoxChar.none, Color.white, ['a'], ['a'], 0⟩ : Todo)].get?
          (searchIndex [⟨BoxChar.none, Color.white, ['a'], ['a'], 0⟩] ['a'] 0) = some td' ∧
        isSubstring ['a'] td'.display_text = true) ∧
      (∀ j tdj, 0 ≤ j →
        j < searchIndex [⟨BoxChar.none, Color.white, ['a'], ['a'], 0⟩] ['a'] 0 →
        [(⟨BoxChar.none, Color.white, ['a'], ['a'], 0⟩ : Todo)].get? j = some tdj →
        isSubstring ['a'] tdj.display_text = false) :=
  (C9_search [⟨BoxChar.none, Color.white, ['a'], ['a'], 0⟩] ['a'] 0).2 0
    ⟨BoxChar.none, Color.white, ['a'], ['a'], 0⟩ (le_refl 0) rfl (by decide)

lemma flatten_gisGo (todos : List Todo) :
    ∀ (secs : List (List Todo)) (cur : List Todo),
      (getIndentedSectionsGo todos secs cur).flatten = secs.flatten ++ cur ++ todos := by
  induction todos with
  | nil =>
    intro secs cur
    simp [getIndentedSectionsGo]
  | cons t rest ih =>
    intro secs cur
    simp only [getIndentedSectionsGo]
    by_cases hi : t.indent_level > 0
    · rw [if_pos hi, ih]
      simp
    · rw [if_neg hi]
      by_cases hc : cur.length > 0
      · rw [if_pos hc, ih]
        simp
      · rw [if_neg hc, ih]
        have hnil : cur = [] := by
          cases cur with
          | nil => rfl
          | cons a b => simp at hc
        subst hnil
        simp

lemma flatten_getIndentedSections (todos : List Todo) :
    (getIndentedSections todos).flatten = todos := by
  have h0 := flatten_gisGo todos [] []
  simpa [getIndentedSections] using h0

lemma pyListIndex_spec {α : Type _} [DecidableEq α] :
    ∀ (l : List α) (a : α), a ∈ l →
      pyListIndex l a < l.length ∧ l.get? (pyListIndex l a) = some a := by
  intro l
  induction l with
  | nil =>
    intro a ha
    simp at ha
  | cons x rest ih =>
    intro a ha
    by_cases hx : x = a
    · constructor
      · simp [pyListIndex, hx]
      · simp [pyListIndex, hx]
    · have hmem : a ∈ rest := by
        rcases List.mem_cons.mp ha with h | h
        · exact absurd h.symm hx
        · exact h
      obtain ⟨ih1, ih2⟩ := ih a hmem
      constructor
      · simp only [pyListIndex, if_neg hx, List.length_cons]
        omega
      · simp only [pyListIndex, if_neg hx, List.get?_cons_succ]
        exact ih2

/-- C8 (confirmed).  Sort identity preservation: for a non-empty list
and any in-range selected index, after sorting the indented sections by
any key, the returned index is in range and points at an item equal to
the originally selected one (same content), wherever it moved.  This
holds because the flattened sorted sections are a permutation of the
original list and `list.index` finds an element equal to the remembered
item. -/
theorem C8_sort_identity (key : List Todo → String) (todos : List Todo) (selected : Nat)
    (hs : selected < todos.length) :
    ∃ st i, sortByKey key todos selected = some (st, i) ∧ i < st.length ∧
      st.get? i = todos.get? selected := by
  obtain ⟨selTd, hsel⟩ : ∃ td, todos.get? selected = some td :=
    ⟨todos.get ⟨selected, hs⟩, List.get?_eq_get hs⟩
  have hmem : selTd ∈ todos := List.get?_mem hsel
  have hperm : ((getIndentedSections todos).mergeSort
      (fun a b => decide (key a ≤ key b))).flatten.Perm todos := by
    have h1 := List.mergeSort_perm (getIndentedSections todos)
      (fun a b => decide (key a ≤ key b))
    have h2 := h1.flatten
    rw [flatten_getIndentedSections] at h2
    exact h2
  have hmem' : selTd ∈ ((getIndentedSections todos).mergeSort
      (fun a b => decide (key a ≤ key b))).flatten := hperm.mem_iff.mpr hmem
  obtain ⟨hlt, hget⟩ := pyListIndex_spec _ selTd hmem'
  have hsb : sortByKey key todos selected =
      some (((getIndentedSections todos).mergeSort
          (fun a b => decide (key a ≤ key b))).flatten,
        pyListIndex ((getIndentedSections todos).mergeSort
          (fun a b => decide (key a ≤ key b))).flatten selTd) := by
    simp only [sortByKey, hsel]
  exact ⟨_, _, hsb, hlt, by rw [hget, hsel]⟩

/-- C8 witness: sorting the one-item list with a constant key returns an
index pointing at an item equal to the selected one. -/
theorem C8_sort_identity_witness :
    ∃ st i, sortByKey (fun _ => "") [⟨BoxChar.minus, Color.white, [], [], 0⟩] 0 =
        some (st, i) ∧ i < st.length ∧
      st.get? i = [(⟨BoxChar.minus, Color.white, [], [], 0⟩ : Todo)].get? 0 :=
  C8_sort_identity (fun _ => "") [⟨BoxChar.minus, Color.white, [], [], 0⟩] 0 (by decide)

end TodoSpec
